import Mathlib

/-!
Shallow embedding of `src/rank.py`, a command-line Elo-based pairwise
ranking utility, together with proofs about it.

Python floats are modelled by real numbers, Python's built-in `round`
(round-half-to-even) by `pyRound`, Python exceptions by `Except String`,
and the randomness of `random.sample` by an explicit seed argument.
-/

/-- Python's built-in `round`: nearest integer, with ties (fractional part
exactly one half) going to the even neighbour. Away from exact halves it
coincides with Mathlib's `round`. -/
noncomputable def pyRound (x : ℝ) : ℤ :=
  if Int.fract x = 1 / 2 then (if Even ⌊x⌋ then ⌊x⌋ else ⌊x⌋ + 1) else round x

/-- `class EloItem` from rank.py: a named item with an integer Elo rating. -/
structure EloItem where
  name : String
  rating : ℤ
deriving DecidableEq

/-- The default rating given by `EloItem.__init__` (1500). -/
def defaultRating : ℤ := 1500

/-- `EloItem.expected_score` from rank.py:
`1 / (1 + 10 ** ((other_item.rating - self.rating) / 400))`. -/
noncomputable def expected_score (self other : EloItem) : ℝ :=
  1 / (1 + (10 : ℝ) ^ (((other.rating : ℝ) - (self.rating : ℝ)) / 400))

/-- `EloItem.update_rating` from rank.py: the new rating of `self` after a
matchup against `opponent` with outcome `did_win` and K-factor `k` (the
Python parameter `k` defaults to 40 at every call site in the program). -/
noncomputable def update_rating (self opponent : EloItem) (did_win : Bool) (k : ℤ) : ℤ :=
  self.rating +
    (if did_win then pyRound ((k : ℝ) * (1 - expected_score self opponent))
     else pyRound ((k : ℝ) * (0 - expected_score self opponent)))

/-- The body of `update_elo_ratings` from rank.py, generalised over the
K-factor passed on to `EloItem.update_rating`. The winner object is mutated
first, so the loser's expected score is computed against the winner's
already-updated rating. Returns (winner's new rating, loser's new rating). -/
noncomputable def updateEloPair (winner loser : EloItem) (k : ℤ) : ℤ × ℤ :=
  (update_rating winner loser true k,
   update_rating loser (EloItem.mk winner.name (update_rating winner loser true k)) false k)

/-- `update_elo_ratings(winner, loser)` from rank.py: both `update_rating`
calls are made with the default K-factor 40. -/
noncomputable def update_elo_ratings (winner loser : EloItem) : ℤ × ℤ :=
  updateEloPair winner loser 40

/-- A Python dict `{"name": ..., "rating": ...}`, the persisted record
format produced by `EloItem.to_json` and consumed by `EloItem.from_dict`. -/
structure RankRecord where
  name : String
  rating : ℤ
deriving DecidableEq

/-- `EloItem.from_dict` from rank.py: `cls(dict_item["name"])` builds the
item with the default rating, then `new_item.rating = dict_item["rating"]`
overwrites it with the persisted rating. -/
def from_dict (dict_item : RankRecord) : EloItem :=
  let new_item := EloItem.mk dict_item.name defaultRating
  EloItem.mk new_item.name dict_item.rating

/-- `EloItem.to_json` from rank.py:
`{"name": self.name, "rating": self.rating}`. -/
def to_json (item : EloItem) : RankRecord :=
  RankRecord.mk item.name item.rating

/-- `pyRound` agrees with the integer on integer inputs. -/
lemma pyRound_intCast (n : ℤ) : pyRound ((n : ℤ) : ℝ) = n := by
  unfold pyRound
  rw [Int.fract_intCast, if_neg (by norm_num : (0 : ℝ) ≠ 1 / 2), round_intCast]

/-- `pyRound` sends anything strictly within half a unit of `n` to `n`. -/
lemma pyRound_eq_of_bounds (x : ℝ) (n : ℤ) (h1 : (n : ℝ) - 1 / 2 < x)
    (h2 : x < (n : ℝ) + 1 / 2) : pyRound x = n := by
  have hfr : Int.fract x ≠ 1 / 2 := by
    intro hf
    have hx : (⌊x⌋ : ℝ) + 1 / 2 = x := by
      have h := Int.floor_add_fract x
      rw [hf] at h
      exact h
    have hfl2 : n - 1 < ⌊x⌋ := by
      have : (n : ℝ) - 1 < (⌊x⌋ : ℝ) := by linarith
      exact_mod_cast this
    have hfu2 : ⌊x⌋ < n := by
      have : (⌊x⌋ : ℝ) < (n : ℝ) := by linarith
      exact_mod_cast this
    omega
  unfold pyRound
  rw [if_neg hfr, round_eq, Int.floor_eq_iff]
  constructor
  · linarith
  · linarith

/-- Sandwiching `10 ^ e` between two rationals by comparing `m`-th powers,
for an exponent `e` with `e * m = 1`. -/
lemma rpow_bounds (m : ℕ) (e : ℝ) (he : e * (m : ℝ) = 1) (lo hi : ℝ)
    (hhi0 : 0 ≤ hi) (hlo : lo ^ m < 10) (hhi : 10 < hi ^ m) :
    lo < (10 : ℝ) ^ e ∧ (10 : ℝ) ^ e < hi := by
  have hpow : ((10 : ℝ) ^ e) ^ m = 10 := by
    rw [← Real.rpow_natCast ((10 : ℝ) ^ e) m,
      ← Real.rpow_mul (by norm_num : (0 : ℝ) ≤ 10), he, Real.rpow_one]
  constructor
  · exact lt_of_pow_lt_pow_left₀ m (Real.rpow_pos_of_pos (by norm_num) e).le
      (by rw [hpow]; exact hlo)
  · exact lt_of_pow_lt_pow_left₀ m hhi0 (by rw [hpow]; exact hhi)

/-- Items of equal rating have expected score one half. -/
lemma expected_score_half (a b : EloItem) (h : a.rating = b.rating) :
    expected_score a b = 1 / 2 := by
  unfold expected_score
  rw [h, sub_self, zero_div, Real.rpow_zero]
  norm_num

/-- The two expected scores of any pair sum to one. -/
lemma expected_score_sum (a b : EloItem) :
    expected_score a b + expected_score b a = 1 := by
  unfold expected_score
  have hx : ((a.rating : ℝ) - (b.rating : ℝ)) / 400 =
      -(((b.rating : ℝ) - (a.rating : ℝ)) / 400) := by ring
  rw [hx, Real.rpow_neg (by norm_num)]
  have ht : (0 : ℝ) < (10 : ℝ) ^ (((b.rating : ℝ) - (a.rating : ℝ)) / 400) :=
    Real.rpow_pos_of_pos (by norm_num) _
  have htne : (10 : ℝ) ^ (((b.rating : ℝ) - (a.rating : ℝ)) / 400) ≠ 0 := ne_of_gt ht
  field_simp
  ring

/-- C3: `expected_score(a, b)` equals `1 / (1 + 10^((b.rating - a.rating) / 400))`
and lies strictly between 0 and 1. -/
theorem expected_score_formula_and_range (a b : EloItem) :
    expected_score a b = 1 / (1 + (10 : ℝ) ^ (((b.rating : ℝ) - (a.rating : ℝ)) / 400)) ∧
    0 < expected_score a b ∧ expected_score a b < 1 := by
  have ht : (0 : ℝ) < (10 : ℝ) ^ (((b.rating : ℝ) - (a.rating : ℝ)) / 400) :=
    Real.rpow_pos_of_pos (by norm_num) _
  refine ⟨rfl, ?_, ?_⟩
  · unfold expected_score
    positivity
  · unfold expected_score
    rw [div_lt_one (by positivity)]
    linarith

/-- C3 witness: the bounds at a concrete pair of items. -/
theorem expected_score_formula_and_range_witness :
    0 < expected_score (EloItem.mk "a" 1500) (EloItem.mk "b" 1600) ∧
    expected_score (EloItem.mk "a" 1500) (EloItem.mk "b" 1600) < 1 :=
  (expected_score_formula_and_range (EloItem.mk "a" 1500) (EloItem.mk "b" 1600)).2

/-- C4: the two expected scores of a pair always sum to 1, and items of
equal rating have expected score one half. -/
theorem expected_score_complement (a b : EloItem) :
    expected_score a b + expected_score b a = 1 ∧
    (a.rating = b.rating → expected_score a b = 1 / 2) :=
  ⟨expected_score_sum a b, expected_score_half a b⟩

/-- C4 witness: at two concrete items of equal rating the scores sum to 1
and each equals one half. -/
theorem expected_score_complement_witness :
    expected_score (EloItem.mk "a" 1500) (EloItem.mk "b" 1500) +
      expected_score (EloItem.mk "b" 1500) (EloItem.mk "a" 1500) = 1 ∧
    expected_score (EloItem.mk "a" 1500) (EloItem.mk "b" 1500) = 1 / 2 :=
  ⟨(expected_score_complement (EloItem.mk "a" 1500) (EloItem.mk "b" 1500)).1,
   (expected_score_complement (EloItem.mk "a" 1500) (EloItem.mk "b" 1500)).2 rfl⟩

/-- C8: `from_dict` inverts `to_json` on every item, preserving the
(name, rating) pair, and saving then reloading a whole collection
reproduces it element for element, in order. -/
theorem from_dict_to_json_roundtrip (item : EloItem) (items : List EloItem) :
    from_dict (to_json item) = item ∧
    (from_dict (to_json item)).name = item.name ∧
    (from_dict (to_json item)).rating = item.rating ∧
    (items.map to_json).map from_dict = items := by
  refine ⟨?_, rfl, rfl, ?_⟩
  · cases item
    rfl
  · induction items with
    | nil => rfl
    | cons x xs ih =>
      simp only [List.map_cons, ih]
      cases x
      rfl

/-- A winning update between equally rated items adds `pyRound(k * 0.5)`,
evaluated here through an integer `n` with `k * (1 - 1/2) = n`. -/
lemma update_rating_win_equal (a b : EloItem) (k n : ℤ) (h : a.rating = b.rating)
    (hk : (k : ℝ) * (1 - 1 / 2) = (n : ℝ)) :
    update_rating a b true k = a.rating + n := by
  unfold update_rating
  rw [expected_score_half a b h, if_pos rfl, hk, pyRound_intCast]

/-- A losing update adds `pyRound(k * (0 - e))` where `e` is the loser's
expected score against the opponent as passed in. -/
lemma update_rating_lose_bound (self opp : EloItem) (k : ℤ) (e : ℝ) (n : ℤ)
    (he : expected_score self opp = e)
    (h1 : (n : ℝ) - 1 / 2 < (k : ℝ) * (0 - e))
    (h2 : (k : ℝ) * (0 - e) < (n : ℝ) + 1 / 2) :
    update_rating self opp false k = self.rating + n := by
  unfold update_rating
  rw [he, if_neg (by simp), pyRound_eq_of_bounds _ n h1 h2]

/-- The loser's expected score against a winner already pushed to 1516. -/
lemma expected_score_1500_1516 :
    expected_score (EloItem.mk "l" 1500) (EloItem.mk "w" 1516) =
      1 / (1 + (10 : ℝ) ^ ((16 : ℝ) / 400)) := by
  unfold expected_score
  norm_num

/-- The loser's expected score against a winner already pushed to 1520. -/
lemma expected_score_1500_1520 :
    expected_score (EloItem.mk "l" 1500) (EloItem.mk "w" 1520) =
      1 / (1 + (10 : ℝ) ^ ((20 : ℝ) / 400)) := by
  unfold expected_score
  norm_num

/-- C1: the code's matchup update at the spec's test vector. Both items
start at rating 1500. With K-factor 32 the winner ends at 1516 as claimed,
but the loser ends at 1485, not the claimed 1484: `update_elo_ratings`
mutates the winner first, so the loser's expected score is computed against
the winner's already-updated rating 1516 instead of 1500. On the actual
call path (K-factor 40) the program produces (1520, 1481) where pre-matchup
expected scores would give (1520, 1480). -/
theorem update_elo_sequential_mutation :
    updateEloPair (EloItem.mk "w" 1500) (EloItem.mk "l" 1500) 32 = (1516, 1485) ∧
    update_elo_ratings (EloItem.mk "w" 1500) (EloItem.mk "l" 1500) = (1520, 1481) := by
  have hW32 : update_rating (EloItem.mk "w" 1500) (EloItem.mk "l" 1500) true 32 = 1516 := by
    rw [update_rating_win_equal (EloItem.mk "w" 1500) (EloItem.mk "l" 1500) 32 16 rfl
      (by norm_num)]
    rfl
  have hW40 : update_rating (EloItem.mk "w" 1500) (EloItem.mk "l" 1500) true 40 = 1520 := by
    rw [update_rating_win_equal (EloItem.mk "w" 1500) (EloItem.mk "l" 1500) 40 20 rfl
      (by norm_num)]
    rfl
  obtain ⟨hlo16, hhi16⟩ := rpow_bounds 25 ((16 : ℝ) / 400) (by norm_num) (33 / 31) (35 / 29)
    (by norm_num) (by norm_num) (by norm_num)
  obtain ⟨hlo20, hhi20⟩ := rpow_bounds 20 ((20 : ℝ) / 400) (by norm_num) (41 / 39) (43 / 37)
    (by norm_num) (by norm_num) (by norm_num)
  have h1T16 : (0 : ℝ) < 1 + (10 : ℝ) ^ ((16 : ℝ) / 400) := by positivity
  have h1T20 : (0 : ℝ) < 1 + (10 : ℝ) ^ ((20 : ℝ) / 400) := by positivity
  have hu16a : 1 / (1 + (10 : ℝ) ^ ((16 : ℝ) / 400)) < 31 / 64 := by
    have h := div_lt_div_of_pos_left (show (0 : ℝ) < 1 by norm_num)
      (show (0 : ℝ) < 64 / 31 by norm_num)
      (show (64 / 31 : ℝ) < 1 + (10 : ℝ) ^ ((16 : ℝ) / 400) by linarith)
    have he : (1 : ℝ) / (64 / 31) = 31 / 64 := by norm_num
    linarith
  have hu16b : (29 / 64 : ℝ) < 1 / (1 + (10 : ℝ) ^ ((16 : ℝ) / 400)) := by
    have h := div_lt_div_of_pos_left (show (0 : ℝ) < 1 by norm_num) h1T16
      (show 1 + (10 : ℝ) ^ ((16 : ℝ) / 400) < 64 / 29 by linarith)
    have he : (1 : ℝ) / (64 / 29) = 29 / 64 := by norm_num
    linarith
  have hu20a : 1 / (1 + (10 : ℝ) ^ ((20 : ℝ) / 400)) < 39 / 80 := by
    have h := div_lt_div_of_pos_left (show (0 : ℝ) < 1 by norm_num)
      (show (0 : ℝ) < 80 / 39 by norm_num)
      (show (80 / 39 : ℝ) < 1 + (10 : ℝ) ^ ((20 : ℝ) / 400) by linarith)
    have he : (1 : ℝ) / (80 / 39) = 39 / 80 := by norm_num
    linarith
  have hu20b : (37 / 80 : ℝ) < 1 / (1 + (10 : ℝ) ^ ((20 : ℝ) / 400)) := by
    have h := div_lt_div_of_pos_left (show (0 : ℝ) < 1 by norm_num) h1T20
      (show 1 + (10 : ℝ) ^ ((20 : ℝ) / 400) < 80 / 37 by linarith)
    have he : (1 : ℝ) / (80 / 37) = 37 / 80 := by norm_num
    linarith
  have hL32 : update_rating (EloItem.mk "l" 1500) (EloItem.mk "w" 1516) false 32 =
      1500 + (-15) := by
    refine update_rating_lose_bound _ _ 32 _ (-15) expected_score_1500_1516 ?_ ?_
    · push_cast
      linarith
    · push_cast
      linarith
  have hL40 : update_rating (EloItem.mk "l" 1500) (EloItem.mk "w" 1520) false 40 =
      1500 + (-19) := by
    refine update_rating_lose_bound _ _ 40 _ (-19) expected_score_1500_1520 ?_ ?_
    · push_cast
      linarith
    · push_cast
      linarith
  constructor
  · unfold updateEloPair
    dsimp only
    rw [hW32, hL32]
    norm_num
  · unfold update_elo_ratings updateEloPair
    dsimp only
    rw [hW40, hL40]
    norm_num

/-- Model of `random.sample(items, 2)` from Python's standard library, at
the level of positions: with fewer than two elements it raises
`ValueError`, otherwise it returns two distinct positions of the list. The
randomness is made explicit as a seed pair `d`; the two positions are
derived from `d` so that every ordered pair of distinct positions is the
outcome for some seed. -/
def sampleTwoIdx (n : ℕ) (d : ℕ × ℕ) : Except String (ℕ × ℕ) :=
  if n < 2 then .error "Sample larger than population or is negative"
  else .ok (d.1 % n, (d.1 % n + 1 + d.2 % (n - 1)) % n)

/-- The default item handed to `List.getD`; the sampled positions are
always in range, so it is never actually used. -/
def padItem : EloItem := EloItem.mk "" defaultRating

/-- `get_matchup` from rank.py: `random.sample(items, 2)`, returning the
two sampled items; the `ValueError` for an undersized population
propagates. -/
def get_matchup (items : List EloItem) (d : ℕ × ℕ) : Except String (EloItem × EloItem) :=
  match sampleTwoIdx items.length d with
  | .error e => .error e
  | .ok ij => .ok (items.getD ij.1 padItem, items.getD ij.2 padItem)

/-- The in-place effect of `update_elo_ratings(winner, loser)` on the item
list, where `wi` and `li` are the positions of the winner and the loser:
both items keep their names and receive the new ratings computed by
`update_elo_ratings`. -/
noncomputable def applyMatch (items : List EloItem) (wi li : ℕ) : List EloItem :=
  (items.set wi (EloItem.mk (items.getD wi padItem).name
      (update_elo_ratings (items.getD wi padItem) (items.getD li padItem)).1)).set li
    (EloItem.mk (items.getD li padItem).name
      (update_elo_ratings (items.getD wi padItem) (items.getD li padItem)).2)

/-- `present_matchup_and_update` from rank.py: draw a matchup, read the
user's `choice`, and on "1"/"2" apply `update_elo_ratings` to the chosen
winner and loser; any other input returns `False` without touching the
items. Returns the continue flag together with the (possibly updated) item
list; the `ValueError` from an undersized collection propagates. -/
noncomputable def present_matchup_and_update (items : List EloItem) (d : ℕ × ℕ)
    (choice : String) : Except String (Bool × List EloItem) :=
  match sampleTwoIdx items.length d with
  | .error e => .error e
  | .ok ij =>
    if choice = "1" then .ok (true, applyMatch items ij.1 ij.2)
    else if choice = "2" then .ok (true, applyMatch items ij.2 ij.1)
    else .ok (false, items)

/-- The `while present_matchup_and_update(items): pass` loop from `main`,
driven by an explicit finite stream of (draw, choice) inputs; an exhausted
stream returns the current items (the real loop would block awaiting
input). -/
noncomputable def runSession : List EloItem → List ((ℕ × ℕ) × String) →
    Except String (List EloItem)
  | items, [] => .ok items
  | items, (d, c) :: rest =>
    match present_matchup_and_update items d c with
    | .error e => .error e
    | .ok (true, items2) => runSession items2 rest
    | .ok (false, items2) => .ok items2

/-- The comparison realised by `items.sort(key=lambda item: item.rating,
reverse=True)` in `main`: descending by rating. -/
def rankRel (a b : EloItem) : Prop := b.rating ≤ a.rating

instance : DecidableRel rankRel := fun a b => Int.decLe b.rating a.rating

instance : IsTotal EloItem rankRel := ⟨fun a b => le_total b.rating a.rating⟩

instance : IsTrans EloItem rankRel := ⟨fun _ _ _ h1 h2 => le_trans h2 h1⟩

/-- `items.sort(key=lambda item: item.rating, reverse=True)` from `main`:
a stable sort of the items, descending by rating. -/
def sortByRatingDesc (items : List EloItem) : List EloItem :=
  List.insertionSort rankRel items

/-- The rank-assignment loop of `display_results` from rank.py: the first
argument is the 1-based position counter of `enumerate(sorted_items, 1)`,
the second the previous item's rating (`None` before the first iteration),
the third the previously assigned rank. An item whose rating equals the
previous item's rating receives the previous rank, otherwise it receives
its position. -/
def rankLoop : ℕ → Option ℤ → ℕ → List EloItem → List (ℕ × EloItem)
  | _, _, _, [] => []
  | i, prev_rating, prev_rank, item :: rest =>
    let rank := if prev_rating = some item.rating then prev_rank else i
    (rank, item) :: rankLoop (i + 1) (some item.rating) rank rest

/-- `display_results` from rank.py, reduced to the data it renders: the
(rank, item) lines, in order. The initial `prev_rank` value 0 stands in for
Python's uninitialised `prev_rank`, which is never read on the first
iteration because `prev_rating` starts as `None`. -/
def display_results (sorted_items : List EloItem) : List (ℕ × EloItem) :=
  rankLoop 1 none 0 sorted_items

/-- The arithmetic behind `sampleTwoIdx`: both derived positions are in
range and they differ. -/
lemma sampleTwo_core (n : ℕ) (hn : 2 ≤ n) (a b : ℕ) :
    a % n < n ∧ (a % n + 1 + b % (n - 1)) % n < n ∧
      a % n ≠ (a % n + 1 + b % (n - 1)) % n := by
  have hi : a % n < n := Nat.mod_lt _ (by omega)
  have hr : b % (n - 1) < n - 1 := Nat.mod_lt _ (by omega)
  refine ⟨hi, Nat.mod_lt _ (by omega), ?_⟩
  intro heq
  by_cases hc : a % n + 1 + b % (n - 1) < n
  · rw [Nat.mod_eq_of_lt hc] at heq
    omega
  · have h1 : n ≤ a % n + 1 + b % (n - 1) := by omega
    have h2 : (a % n + 1 + b % (n - 1)) % n = a % n + 1 + b % (n - 1) - n := by
      rw [Nat.mod_eq_sub_mod h1, Nat.mod_eq_of_lt (by omega)]
    rw [h2] at heq
    omega

/-- With at least two items, `sampleTwoIdx` succeeds with two distinct
in-range positions. -/
lemma sampleTwoIdx_ok (n : ℕ) (d : ℕ × ℕ) (h : 2 ≤ n) :
    ∃ i j, sampleTwoIdx n d = .ok (i, j) ∧ i < n ∧ j < n ∧ i ≠ j := by
  obtain ⟨h1, h2, h3⟩ := sampleTwo_core n h d.1 d.2
  exact ⟨d.1 % n, (d.1 % n + 1 + d.2 % (n - 1)) % n,
    by unfold sampleTwoIdx; rw [if_neg (by omega)], h1, h2, h3⟩

/-- Conversely, a successful `sampleTwoIdx` came from a population of at
least two and returned two distinct in-range positions. -/
lemma sampleTwoIdx_ok_inv (n : ℕ) (d : ℕ × ℕ) (i j : ℕ)
    (h : sampleTwoIdx n d = .ok (i, j)) : 2 ≤ n ∧ i < n ∧ j < n ∧ i ≠ j := by
  unfold sampleTwoIdx at h
  by_cases hn : n < 2
  · rw [if_pos hn] at h
    exact absurd h (by simp)
  · rw [if_neg hn] at h
    obtain ⟨h1, h2, h3⟩ := sampleTwo_core n (by omega) d.1 d.2
    simp only [Except.ok.injEq, Prod.mk.injEq] at h
    obtain ⟨hi, hj⟩ := h
    subst hi
    subst hj
    exact ⟨by omega, h1, h2, h3⟩

/-- C5: with at least two items, `get_matchup` returns two items drawn at
distinct positions; when the items are pairwise distinct the two returned
items differ, and on a two-item collection it returns both items, in one
order or the other. -/
theorem get_matchup_distinct (items : List EloItem) (d : ℕ × ℕ)
    (h : 2 ≤ items.length) :
    (∃ (i : ℕ) (j : ℕ) (hi : i < items.length) (hj : j < items.length), i ≠ j ∧
      get_matchup items d = .ok (items.get ⟨i, hi⟩, items.get ⟨j, hj⟩)) ∧
    (items.Nodup → ∀ a b, get_matchup items d = .ok (a, b) → a ≠ b) ∧
    (∀ x y, items = [x, y] →
      get_matchup items d = .ok (x, y) ∨ get_matchup items d = .ok (y, x)) := by
  obtain ⟨i, j, hok, hi, hj, hij⟩ := sampleTwoIdx_ok items.length d h
  have hmatch : get_matchup items d = .ok (items.get ⟨i, hi⟩, items.get ⟨j, hj⟩) := by
    unfold get_matchup
    rw [hok]
    dsimp only
    rw [List.getD_eq_getElem _ _ hi, List.getD_eq_getElem _ _ hj]
    simp [List.get_eq_getElem]
  refine ⟨⟨i, j, hi, hj, hij, hmatch⟩, ?_, ?_⟩
  · intro hnd a b hab
    rw [hmatch] at hab
    simp only [Except.ok.injEq, Prod.mk.injEq] at hab
    obtain ⟨ha, hb⟩ := hab
    subst ha
    subst hb
    intro hcontra
    have := (hnd.get_inj_iff).mp hcontra
    exact hij (by simpa using congrArg Fin.val this)
  · intro x y hxy
    subst hxy
    have h2 : i < 2 := by simpa using hi
    have h2' : j < 2 := by simpa using hj
    interval_cases i <;> interval_cases j <;> simp_all [hmatch]

/-- C5 witness: a concrete two-item matchup returns both items. -/
theorem get_matchup_distinct_witness :
    get_matchup [EloItem.mk "x" 1500, EloItem.mk "y" 1500] (0, 0) =
        .ok (EloItem.mk "x" 1500, EloItem.mk "y" 1500) ∨
      get_matchup [EloItem.mk "x" 1500, EloItem.mk "y" 1500] (0, 0) =
        .ok (EloItem.mk "y" 1500, EloItem.mk "x" 1500) :=
  (get_matchup_distinct [EloItem.mk "x" 1500, EloItem.mk "y" 1500] (0, 0)
    (by decide)).2.2 (EloItem.mk "x" 1500) (EloItem.mk "y" 1500) rfl

/-- C7: with fewer than two items, matchup selection fails with the
insufficient-population `ValueError` rather than returning anything. -/
theorem get_matchup_insufficient (items : List EloItem) (d : ℕ × ℕ)
    (h : items.length < 2) :
    get_matchup items d = .error "Sample larger than population or is negative" := by
  unfold get_matchup sampleTwoIdx
  rw [if_pos h]

/-- C7 witness: the empty collection fails with the `ValueError`. -/
theorem get_matchup_insufficient_witness :
    get_matchup [] (0, 0) = .error "Sample larger than population or is negative" :=
  get_matchup_insufficient [] (0, 0) (by decide)

/-- C6: with a loaded collection (at least two items), any decision input
other than "1" and "2" makes the step return `False` with the items
untouched, and makes a whole session that opens with such an input return
the items exactly as loaded. -/
theorem stop_input_preserves_ratings (items : List EloItem) (d : ℕ × ℕ) (c : String)
    (h : 2 ≤ items.length) (h1 : c ≠ "1") (h2 : c ≠ "2") :
    present_matchup_and_update items d c = .ok (false, items) ∧
    ∀ rest, runSession items ((d, c) :: rest) = .ok items := by
  obtain ⟨i, j, hok, _, _, _⟩ := sampleTwoIdx_ok items.length d h
  have hstep : present_matchup_and_update items d c = .ok (false, items) := by
    unfold present_matchup_and_update
    rw [hok]
    dsimp only
    rw [if_neg h1, if_neg h2]
  refine ⟨hstep, fun rest => ?_⟩
  unfold runSession
  rw [hstep]

/-- C6 witness: a concrete immediate-stop session. -/
theorem stop_input_preserves_ratings_witness :
    present_matchup_and_update [EloItem.mk "x" 1500, EloItem.mk "y" 1600] (0, 0) "q" =
      .ok (false, [EloItem.mk "x" 1500, EloItem.mk "y" 1600]) ∧
    ∀ rest, runSession [EloItem.mk "x" 1500, EloItem.mk "y" 1600] (((0, 0), "q") :: rest) =
      .ok [EloItem.mk "x" 1500, EloItem.mk "y" 1600] :=
  stop_input_preserves_ratings [EloItem.mk "x" 1500, EloItem.mk "y" 1600] (0, 0) "q"
    (by decide) (by decide) (by decide)

/-- `applyMatch` keeps the list length. -/
lemma applyMatch_length (items : List EloItem) (wi li : ℕ) :
    (applyMatch items wi li).length = items.length := by
  simp [applyMatch]

/-- `applyMatch` leaves every position other than the two matched ones
untouched. -/
lemma applyMatch_getD_other (items : List EloItem) (wi li k : ℕ)
    (hkw : k ≠ wi) (hkl : k ≠ li) :
    (applyMatch items wi li).getD k padItem = items.getD k padItem := by
  unfold applyMatch
  rw [List.getD_eq_getElem?_getD, List.getElem?_set_ne (Ne.symm hkl),
    List.getElem?_set_ne (Ne.symm hkw), ← List.getD_eq_getElem?_getD]

/-- The winner's slot after `applyMatch`: same name, first component of
`update_elo_ratings`. -/
lemma applyMatch_getD_w (items : List EloItem) (wi li : ℕ)
    (hwi : wi < items.length) (hne : wi ≠ li) :
    (applyMatch items wi li).getD wi padItem =
      EloItem.mk (items.getD wi padItem).name
        (update_elo_ratings (items.getD wi padItem) (items.getD li padItem)).1 := by
  unfold applyMatch
  rw [List.getD_eq_getElem?_getD, List.getElem?_set_ne (Ne.symm hne),
    List.getElem?_set_self (by simpa using hwi)]
  rfl

/-- The loser's slot after `applyMatch`: same name, second component of
`update_elo_ratings`. -/
lemma applyMatch_getD_l (items : List EloItem) (wi li : ℕ)
    (hli : li < items.length) :
    (applyMatch items wi li).getD li padItem =
      EloItem.mk (items.getD li padItem).name
        (update_elo_ratings (items.getD wi padItem) (items.getD li padItem)).2 := by
  unfold applyMatch
  rw [List.getD_eq_getElem?_getD, List.getElem?_set_self (by simpa using hli)]
  rfl

/-- `applyMatch` never changes any item's name. -/
lemma applyMatch_name (items : List EloItem) (wi li k : ℕ)
    (hwi : wi < items.length) (hli : li < items.length) (hne : wi ≠ li) :
    ((applyMatch items wi li).getD k padItem).name = (items.getD k padItem).name := by
  by_cases hkl : k = li
  · subst hkl
    rw [applyMatch_getD_l items wi k hli]
  · by_cases hkw : k = wi
    · subst hkw
      rw [applyMatch_getD_w items k li hwi hne]
    · rw [applyMatch_getD_other items wi li k hkw hkl]

/-- C9: a session step never adds or removes items, never reorders them,
and never changes a name; at most the two matched positions change at all. -/
theorem step_preserves_collection (items : List EloItem) (d : ℕ × ℕ) (c : String)
    (b : Bool) (items2 : List EloItem)
    (h : present_matchup_and_update items d c = .ok (b, items2)) :
    items2.length = items.length ∧
    (∀ k, ((items2.getD k padItem)).name = ((items.getD k padItem)).name) ∧
    ∃ (i : ℕ) (j : ℕ), i < items.length ∧ j < items.length ∧ i ≠ j ∧
      ∀ k, k ≠ i → k ≠ j → items2.getD k padItem = items.getD k padItem := by
  unfold present_matchup_and_update at h
  cases hs : sampleTwoIdx items.length d with
  | error e =>
    rw [hs] at h
    exact absurd h (by simp)
  | ok ij =>
    obtain ⟨i, j⟩ := ij
    obtain ⟨hn2, hi, hj, hij⟩ := sampleTwoIdx_ok_inv items.length d i j hs
    rw [hs] at h
    dsimp only at h
    by_cases hc1 : c = "1"
    · rw [if_pos hc1] at h
      simp only [Except.ok.injEq, Prod.mk.injEq] at h
      obtain ⟨hb, hitems⟩ := h
      subst hitems
      exact ⟨applyMatch_length items i j,
        fun k => applyMatch_name items i j k hi hj hij,
        i, j, hi, hj, hij, fun k hk1 hk2 => applyMatch_getD_other items i j k hk1 hk2⟩
    · by_cases hc2 : c = "2"
      · rw [if_neg hc1, if_pos hc2] at h
        simp only [Except.ok.injEq, Prod.mk.injEq] at h
        obtain ⟨hb, hitems⟩ := h
        subst hitems
        exact ⟨applyMatch_length items j i,
          fun k => applyMatch_name items j i k hj hi (Ne.symm hij),
          i, j, hi, hj, hij, fun k hk1 hk2 => applyMatch_getD_other items j i k hk2 hk1⟩
      · rw [if_neg hc1, if_neg hc2] at h
        simp only [Except.ok.injEq, Prod.mk.injEq] at h
        obtain ⟨hb, hitems⟩ := h
        subst hitems
        exact ⟨rfl, fun k => rfl, i, j, hi, hj, hij, fun k _ _ => rfl⟩

/-- C9 witness: a concrete preference step on a two-item collection. -/
theorem step_preserves_collection_witness :
    (applyMatch [EloItem.mk "x" 1500, EloItem.mk "y" 1600] 0 1).length =
      ([EloItem.mk "x" 1500, EloItem.mk "y" 1600] : List EloItem).length ∧
    (∀ k, (((applyMatch [EloItem.mk "x" 1500, EloItem.mk "y" 1600] 0 1).getD k
        padItem)).name =
      ((([EloItem.mk "x" 1500, EloItem.mk "y" 1600] : List EloItem).getD k
        padItem)).name) ∧
    ∃ (i : ℕ) (j : ℕ), i < ([EloItem.mk "x" 1500, EloItem.mk "y" 1600] : List EloItem).length ∧
      j < ([EloItem.mk "x" 1500, EloItem.mk "y" 1600] : List EloItem).length ∧ i ≠ j ∧
      ∀ k, k ≠ i → k ≠ j →
        (applyMatch [EloItem.mk "x" 1500, EloItem.mk "y" 1600] 0 1).getD k padItem =
          ([EloItem.mk "x" 1500, EloItem.mk "y" 1600] : List EloItem).getD k padItem :=
  step_preserves_collection [EloItem.mk "x" 1500, EloItem.mk "y" 1600] (0, 0) "1" true
    (applyMatch [EloItem.mk "x" 1500, EloItem.mk "y" 1600] 0 1) (by rfl)

/-- C10: `update_elo_ratings` is exactly the K-factor-40 instance of the
update, and both preference branches of a session step route their rating
changes through it: the two matched slots receive precisely the
K-factor-40 updated ratings. -/
theorem all_updates_use_k40 (winner loser : EloItem) (items : List EloItem)
    (d : ℕ × ℕ) (h : 2 ≤ items.length) :
    update_elo_ratings winner loser = updateEloPair winner loser 40 ∧
    ∃ (i : ℕ) (j : ℕ), i < items.length ∧ j < items.length ∧ i ≠ j ∧
      sampleTwoIdx items.length d = .ok (i, j) ∧
      present_matchup_and_update items d "1" = .ok (true, applyMatch items i j) ∧
      present_matchup_and_update items d "2" = .ok (true, applyMatch items j i) ∧
      (applyMatch items i j).getD i padItem =
        EloItem.mk (items.getD i padItem).name
          (updateEloPair (items.getD i padItem) (items.getD j padItem) 40).1 ∧
      (applyMatch items i j).getD j padItem =
        EloItem.mk (items.getD j padItem).name
          (updateEloPair (items.getD i padItem) (items.getD j padItem) 40).2 := by
  obtain ⟨i, j, hok, hi, hj, hij⟩ := sampleTwoIdx_ok items.length d h
  refine ⟨rfl, i, j, hi, hj, hij, hok, ?_, ?_, ?_, ?_⟩
  · unfold present_matchup_and_update
    rw [hok]
    dsimp only
    rw [if_pos rfl]
  · unfold present_matchup_and_update
    rw [hok]
    dsimp only
    rw [if_neg (by decide), if_pos rfl]
  · rw [applyMatch_getD_w items i j hi hij]
    rfl
  · rw [applyMatch_getD_l items i j hj]
    rfl

/-- C10 witness: the session step at a concrete two-item collection. -/
theorem all_updates_use_k40_witness :
    update_elo_ratings (EloItem.mk "x" 1500) (EloItem.mk "y" 1600) =
      updateEloPair (EloItem.mk "x" 1500) (EloItem.mk "y" 1600) 40 ∧
    ∃ (i : ℕ) (j : ℕ),
      i < ([EloItem.mk "x" 1500, EloItem.mk "y" 1600] : List EloItem).length ∧
      j < ([EloItem.mk "x" 1500, EloItem.mk "y" 1600] : List EloItem).length ∧ i ≠ j ∧
      sampleTwoIdx ([EloItem.mk "x" 1500, EloItem.mk "y" 1600] : List EloItem).length
        (0, 0) = .ok (i, j) ∧
      present_matchup_and_update [EloItem.mk "x" 1500, EloItem.mk "y" 1600] (0, 0) "1" =
        .ok (true, applyMatch [EloItem.mk "x" 1500, EloItem.mk "y" 1600] i j) ∧
      present_matchup_and_update [EloItem.mk "x" 1500, EloItem.mk "y" 1600] (0, 0) "2" =
        .ok (true, applyMatch [EloItem.mk "x" 1500, EloItem.mk "y" 1600] j i) ∧
      (applyMatch [EloItem.mk "x" 1500, EloItem.mk "y" 1600] i j).getD i padItem =
        EloItem.mk (([EloItem.mk "x" 1500, EloItem.mk "y" 1600] : List EloItem).getD i
            padItem).name
          (updateEloPair
            (([EloItem.mk "x" 1500, EloItem.mk "y" 1600] : List EloItem).getD i padItem)
            (([EloItem.mk "x" 1500, EloItem.mk "y" 1600] : List EloItem).getD j padItem)
            40).1 ∧
      (applyMatch [EloItem.mk "x" 1500, EloItem.mk "y" 1600] i j).getD j padItem =
        EloItem.mk (([EloItem.mk "x" 1500, EloItem.mk "y" 1600] : List EloItem).getD j
            padItem).name
          (updateEloPair
            (([EloItem.mk "x" 1500, EloItem.mk "y" 1600] : List EloItem).getD i padItem)
            (([EloItem.mk "x" 1500, EloItem.mk "y" 1600] : List EloItem).getD j padItem)
            40).2 :=
  all_updates_use_k40 (EloItem.mk "x" 1500) (EloItem.mk "y" 1600)
    [EloItem.mk "x" 1500, EloItem.mk "y" 1600] (0, 0) (by decide)

/-- `rankLoop` decorates the items with ranks without dropping, adding or
reordering them. -/
lemma rankLoop_map_snd : ∀ (s : List EloItem) (i : ℕ) (p : Option ℤ) (pr : ℕ),
    (rankLoop i p pr s).map Prod.snd = s := by
  intro s
  induction s with
  | nil => intro i p pr; rfl
  | cons x rest ih =>
    intro i p pr
    simp only [rankLoop, List.map_cons, ih]

/-- `rankLoop` keeps the list length. -/
lemma rankLoop_length (i : ℕ) (p : Option ℤ) (pr : ℕ) (s : List EloItem) :
    (rankLoop i p pr s).length = s.length := by
  have h := congrArg List.length (rankLoop_map_snd s i p pr)
  simpa using h

/-- `display_results` keeps the list length. -/
lemma display_results_length (s : List EloItem) :
    (display_results s).length = s.length :=
  rankLoop_length 1 none 0 s

/-- The first rank assigned by `rankLoop`. -/
lemma rankLoop_get_zero (i : ℕ) (p : Option ℤ) (pr : ℕ) (x : EloItem)
    (rest : List EloItem) (h : 0 < (rankLoop i p pr (x :: rest)).length) :
    ((rankLoop i p pr (x :: rest)).get ⟨0, h⟩).1 =
      if p = some x.rating then pr else i := rfl

/-- The rank at a successor position: the previous rank on a rating tie
with the previous item, the 1-based position otherwise. -/
lemma rankLoop_get_succ : ∀ (s : List EloItem) (i : ℕ) (p : Option ℤ) (pr : ℕ) (j : ℕ)
    (hj : j + 1 < s.length) (h2 : j + 1 < (rankLoop i p pr s).length)
    (h3 : j < (rankLoop i p pr s).length) (h4 : j < s.length),
    ((rankLoop i p pr s).get ⟨j + 1, h2⟩).1 =
      if (s.get ⟨j, h4⟩).rating = (s.get ⟨j + 1, hj⟩).rating
      then ((rankLoop i p pr s).get ⟨j, h3⟩).1
      else i + j + 1 := by
  intro s
  induction s with
  | nil =>
    intro i p pr j hj h2 h3 h4
    simp at hj
  | cons x rest ih =>
    intro i p pr j hj h2 h3 h4
    cases rest with
    | nil => simp at hj
    | cons y rest2 =>
      cases j with
      | zero =>
        show (if some x.rating = some y.rating
            then (if p = some x.rating then pr else i) else i + 1) =
          if x.rating = y.rating
          then (if p = some x.rating then pr else i) else i + 0 + 1
        by_cases hxy : x.rating = y.rating
        · rw [if_pos hxy, if_pos (show some x.rating = some y.rating from by rw [hxy])]
        · rw [if_neg hxy,
            if_neg (fun hc : some x.rating = some y.rating => hxy (Option.some.inj hc))]
      | succ j2 =>
        have hj' : j2 + 1 < (y :: rest2).length := by simpa using hj
        have h4' : j2 < (y :: rest2).length := by simpa using h4
        have h2' : j2 + 1 < (rankLoop (i + 1) (some x.rating)
            (if p = some x.rating then pr else i) (y :: rest2)).length := by
          rw [rankLoop_length]
          exact hj'
        have h3' : j2 < (rankLoop (i + 1) (some x.rating)
            (if p = some x.rating then pr else i) (y :: rest2)).length := by
          rw [rankLoop_length]
          omega
        have e := ih (i + 1) (some x.rating) (if p = some x.rating then pr else i)
          j2 hj' h2' h3' h4'
        have hL1 : ((rankLoop i p pr (x :: y :: rest2)).get ⟨j2 + 1 + 1, h2⟩) =
            ((rankLoop (i + 1) (some x.rating) (if p = some x.rating then pr else i)
              (y :: rest2)).get ⟨j2 + 1, h2'⟩) := rfl
        have hL2 : ((rankLoop i p pr (x :: y :: rest2)).get ⟨j2 + 1, h3⟩) =
            ((rankLoop (i + 1) (some x.rating) (if p = some x.rating then pr else i)
              (y :: rest2)).get ⟨j2, h3'⟩) := rfl
        simp only [List.get_cons_succ]
        rw [hL1, hL2, e]
        simp only [List.get_cons_succ]
        by_cases hyy : ((y :: rest2).get ⟨j2, h4'⟩).rating =
            (rest2.get ⟨j2, by simpa using hj'⟩).rating
        · rw [if_pos hyy, if_pos hyy]
        · rw [if_neg hyy, if_neg hyy]
          omega

/-- The first displayed rank is 1. -/
lemma display_results_get_zero (s : List EloItem)
    (h : 0 < (display_results s).length) :
    ((display_results s).get ⟨0, h⟩).1 = 1 := by
  cases s with
  | nil => simp [display_results, rankLoop] at h
  | cons x rest =>
    show ((rankLoop 1 none 0 (x :: rest)).get ⟨0, h⟩).1 = 1
    rw [rankLoop_get_zero]
    simp

/-- C2: after the session loop, the displayed collection is the original
one sorted by rating descending; ranks start at 1 and advance with the
1-based position, except that an item whose rating ties the previous item's
rating keeps the previous rank; the spec's three-item example renders as
1) A, 1) B, 3) C. -/
theorem ranking_sorted_and_tied_ranks (l : List EloItem) :
    List.Sorted rankRel (sortByRatingDesc l) ∧
    (sortByRatingDesc l).Perm l ∧
    (display_results (sortByRatingDesc l)).map Prod.snd = sortByRatingDesc l ∧
    (∀ h : 0 < (display_results (sortByRatingDesc l)).length,
      ((display_results (sortByRatingDesc l)).get ⟨0, h⟩).1 = 1) ∧
    (∀ (j : ℕ) (hj : j + 1 < (sortByRatingDesc l).length)
        (h2 : j + 1 < (display_results (sortByRatingDesc l)).length)
        (h3 : j < (display_results (sortByRatingDesc l)).length)
        (h4 : j < (sortByRatingDesc l).length),
      ((display_results (sortByRatingDesc l)).get ⟨j + 1, h2⟩).1 =
        if ((sortByRatingDesc l).get ⟨j, h4⟩).rating =
            ((sortByRatingDesc l).get ⟨j + 1, hj⟩).rating
        then ((display_results (sortByRatingDesc l)).get ⟨j, h3⟩).1
        else j + 2) ∧
    display_results (sortByRatingDesc
        [EloItem.mk "A" 1600, EloItem.mk "B" 1600, EloItem.mk "C" 1500]) =
      [(1, EloItem.mk "A" 1600), (1, EloItem.mk "B" 1600), (3, EloItem.mk "C" 1500)] := by
  refine ⟨List.sorted_insertionSort rankRel l, List.perm_insertionSort rankRel l,
    rankLoop_map_snd (sortByRatingDesc l) 1 none 0,
    fun h => display_results_get_zero (sortByRatingDesc l) h,
    fun j hj h2 h3 h4 => ?_, by decide⟩
  have e := rankLoop_get_succ (sortByRatingDesc l) 1 none 0 j hj h2 h3 h4
  have e2 : 1 + j + 1 = j + 2 := by omega
  rw [e2] at e
  exact e

/-- C2 witness: the rank equations at the spec's three-item example. -/
theorem ranking_sorted_and_tied_ranks_witness :
    (((display_results (sortByRatingDesc
        [EloItem.mk "A" 1600, EloItem.mk "B" 1600, EloItem.mk "C" 1500])).get
      ⟨0, by decide⟩).1 = 1) ∧
    ((display_results (sortByRatingDesc
        [EloItem.mk "A" 1600, EloItem.mk "B" 1600, EloItem.mk "C" 1500])).get
      ⟨1 + 1, by decide⟩).1 =
      if ((sortByRatingDesc
            [EloItem.mk "A" 1600, EloItem.mk "B" 1600, EloItem.mk "C" 1500]).get
          ⟨1, by decide⟩).rating =
          ((sortByRatingDesc
            [EloItem.mk "A" 1600, EloItem.mk "B" 1600, EloItem.mk "C" 1500]).get
          ⟨1 + 1, by decide⟩).rating
      then ((display_results (sortByRatingDesc
          [EloItem.mk "A" 1600, EloItem.mk "B" 1600, EloItem.mk "C" 1500])).get
        ⟨1, by decide⟩).1
      else 1 + 2 :=
  ⟨(ranking_sorted_and_tied_ranks
      [EloItem.mk "A" 1600, EloItem.mk "B" 1600, EloItem.mk "C" 1500]).2.2.2.1 (by decide),
   (ranking_sorted_and_tied_ranks
      [EloItem.mk "A" 1600, EloItem.mk "B" 1600, EloItem.mk "C" 1500]).2.2.2.2.1
     1 (by decide) (by decide) (by decide) (by decide)⟩

/-- C8 witness: the round trip at a concrete item and collection. -/
theorem from_dict_to_json_roundtrip_witness :
    from_dict (to_json (EloItem.mk "alpha" 1487)) = EloItem.mk "alpha" 1487 ∧
    (from_dict (to_json (EloItem.mk "alpha" 1487))).name = (EloItem.mk "alpha" 1487).name ∧
    (from_dict (to_json (EloItem.mk "alpha" 1487))).rating =
      (EloItem.mk "alpha" 1487).rating ∧
    (([EloItem.mk "alpha" 1487, EloItem.mk "beta" 1600] : List EloItem).map to_json).map
      from_dict = [EloItem.mk "alpha" 1487, EloItem.mk "beta" 1600] :=
  from_dict_to_json_roundtrip (EloItem.mk "alpha" 1487)
    [EloItem.mk "alpha" 1487, EloItem.mk "beta" 1600]
